import Mathlib

/-!
Verification of the "ai-llm-engineering-1" repository against its
natural-language specification.

The repository consists of a Jupyter notebook (`day_1/Hello_LLM.ipynb`)
with small chat-API helper functions, and two tutorial READMEs
(`day_8/deep_research`, `day_8/mcp`).  The notebook's helper functions
are embedded below directly from their Python source.  The MCP dice
roller (`tool/dice_roller.py`) and the MCP HTTP server are described by
the README and the spec but their source files are not part of the
repository snapshot, so those components are modelled from the spec's
words (each such definition says so in its doc comment).
-/

/- ## Day 1 notebook: chat helper functions

Python source (cell of `day_1/Hello_LLM.ipynb`):

    def get_response(client: OpenAI, messages: str, model: str = "gpt-4.1-nano") -> str:
        return client.chat.completions.create(model=model, messages=messages)

    def system_prompt(message: str) -> dict:
        return {"role": "developer", "content": message}

    def assistant_prompt(message: str) -> dict:
        return {"role": "assistant", "content": message}

    def user_prompt(message: str) -> dict:
        return {"role": "user", "content": message}

    def pretty_print(message: str) -> str:
        display(Markdown(message.choices[0].message.content))

A Python dict literal with string keys is embedded as an association
list, so that "which keys does the dict have" is a faithful question. -/

/-- A role-tagged message dict: an association list of string keys to
string values, embedding the Python dict `{"role": ..., "content": ...}`. -/
abbrev MessageDict : Type := List (String × String)

/-- Embeds `system_prompt`: returns the dict with the two entries
`"role": "developer"` and `"content": message`. -/
def system_prompt (message : String) : MessageDict :=
  [("role", "developer"), ("content", message)]

/-- Embeds `assistant_prompt`: returns the dict with the two entries
`"role": "assistant"` and `"content": message`. -/
def assistant_prompt (message : String) : MessageDict :=
  [("role", "assistant"), ("content", message)]

/-- Embeds `user_prompt`: returns the dict with the two entries
`"role": "user"` and `"content": message`. -/
def user_prompt (message : String) : MessageDict :=
  [("role", "user"), ("content", message)]

/-- The payload `get_response` hands to
`client.chat.completions.create`: a model name and the ordered list of
message dicts. -/
structure ChatRequest where
  model : String
  messages : List MessageDict
  deriving Repr, DecidableEq

/-- Embeds `get_response`.  The hosted API client is abstracted as a
function from the request it receives to an arbitrary response type;
`get_response` builds the request from its two arguments and calls the
client on it, and does nothing else. -/
def get_response {ρ : Type} (client : ChatRequest → ρ)
    (messages : List MessageDict) (model : String) : ρ :=
  client ⟨model, messages⟩

/-- The default value of the `model` parameter of `get_response` in the
Python source. -/
def default_model : String := "gpt-4.1-nano"

/-- Embeds a call of `get_response` that omits the `model` argument:
Python then uses the declared default value. -/
def get_response_default {ρ : Type} (client : ChatRequest → ρ)
    (messages : List MessageDict) : ρ :=
  get_response client messages default_model

/-- The inner message object of one choice of a chat-completion
response (`message.content` in the Python source). -/
structure ChatMessage where
  content : String
  deriving Repr, DecidableEq

/-- One element of the `choices` array of a chat-completion response. -/
structure Choice where
  message : ChatMessage
  deriving Repr, DecidableEq

/-- A chat-completion response object, as far as `pretty_print`
inspects it: its list of choices. -/
structure ChatResponse where
  choices : List Choice
  deriving Repr, DecidableEq

/-- One IPython display call performed by the notebook. -/
inductive DisplayCall : Type where
  | markdown (text : String)
  deriving Repr, DecidableEq

/-- Embeds `pretty_print`.  The Python body is the single statement
`display(Markdown(message.choices[0].message.content))`; the function
has no `return`, so its value is `None`.  The embedding returns the
trace of display calls paired with the returned value (`none` standing
for Python `None`); the outer `Option` is `none` exactly when the
subscript `choices[0]` would raise `IndexError`. -/
def pretty_print (message : ChatResponse) :
    Option (List DisplayCall × Option String) :=
  (message.choices.get? 0).map
    (fun c => ([DisplayCall.markdown c.message.content], none))

/- ## Day 8 MCP: dice roller

The README documents the tool `roll_dice` (file `tool/dice_roller.py`),
whose source is not part of the repository snapshot; the definitions
below are therefore modelled from the spec and README:
grammar "XdY" or "XdYkZ" (numbers of dice, faces, optional keep-highest
count), result the sum of the X draws in [1, Y], keeping only the top Z
of them when the "kZ" modifier is present, and the error message
"Invalid dice notation" on any other input. -/

/-- Modelled from the spec: longest digit prefix of a character list,
together with the remainder (the scanning step of the dice-string
parsing; the real `tool/dice_roller.py` is absent from the snapshot). -/
def takeDigits : List Char → List Char × List Char
  | [] => ([], [])
  | c :: cs =>
      if c.isDigit then
        let p := takeDigits cs
        (c :: p.1, p.2)
      else ([], c :: cs)

/-- Modelled from the spec: the number denoted by a digit string. -/
def digitsToNat (cs : List Char) : Nat :=
  cs.foldl (fun n c => 10 * n + (c.toNat - Char.toNat '0')) 0

/-- Modelled from the spec: parsing of the part of a dice string after
the letter k: the keep-highest digits, which must run to the end of the
string. -/
def parseAfterK (x y : Nat) (cs : List Char) : Option (Nat × Nat × Option Nat) :=
  let pz := takeDigits cs
  if pz.1 = [] then none
  else if pz.2 = [] then some (x, y, some (digitsToNat pz.1))
  else none

/-- Modelled from the spec: parsing of the part of a dice string after
the letter d: digits, optionally followed by the letter k and the
keep-highest digits. -/
def parseAfterD (x : Nat) (cs : List Char) : Option (Nat × Nat × Option Nat) :=
  let py := takeDigits cs
  if py.1 = [] then none
  else
    match py.2 with
    | [] => some (x, digitsToNat py.1, none)
    | c :: rest => if c = 'k' then parseAfterK x (digitsToNat py.1) rest else none

/-- Modelled from the spec: parsing of the dice grammar over a
character list.  Accepts exactly `XdY` (digits, letter d, digits) and
`XdYkZ` (additionally letter k and digits), returning the triple
(number of dice, faces per die, optional keep-highest count);
covers for the absent `tool/dice_roller.py`. -/
def parseDiceCore (cs : List Char) : Option (Nat × Nat × Option Nat) :=
  let px := takeDigits cs
  if px.1 = [] then none
  else
    match px.2 with
    | [] => none
    | c :: rest => if c = 'd' then parseAfterD (digitsToNat px.1) rest else none

/-- Modelled from the spec: dice-string parsing on strings. -/
def parseDice (s : String) : Option (Nat × Nat × Option Nat) :=
  parseDiceCore s.data

/-- Modelled from the spec: the list of the `x` integer draws in
`[1, y]` produced by the sampling step, with the random source
abstracted as a stream `rand` of natural numbers (draw `i` is
`1 + rand i % y`, which is uniform on `[1, y]` for a uniform source). -/
def drawsOf (rand : Nat → Nat) (x y : Nat) : List Nat :=
  (List.range x).map (fun i => 1 + rand i % y)

/-- Modelled from the spec: the result computed from the list of draws:
their sum, or, when a keep-highest count `z` is present, the sum of the
`z` largest draws (sort descending, take `z`). -/
def rollResult (keep : Option Nat) (draws : List Nat) : Nat :=
  match keep with
  | none => draws.sum
  | some z => ((List.insertionSort (fun a b => b ≤ a) draws).take z).sum

/-- Modelled from the spec: the dice roller pipeline, absent file
`tool/dice_roller.py`: parse the string, then sample and combine;
returns the parsed triple together with the numeric result, or `none`
on a string outside the grammar. -/
def roll_dice (rand : Nat → Nat) (s : String) :
    Option ((Nat × Nat × Option Nat) × Nat) :=
  (parseDice s).map
    (fun t => (t, rollResult t.2.2 (drawsOf rand t.1 t.2.1)))

/-- Modelled from the spec: the `roll_dice` tool as exposed to clients,
which reports the README's error message "Invalid dice notation" on a
malformed string instead of a result. -/
def roll_dice_tool (rand : Nat → Nat) (s : String) :
    Except String ((Nat × Nat × Option Nat) × Nat) :=
  match roll_dice rand s with
  | none => Except.error "Invalid dice notation"
  | some r => Except.ok r

/-- A character list is of the form `XdY` or `XdYkZ`: a nonempty digit
string, the letter d, a nonempty digit string, and optionally the
letter k followed by a nonempty digit string.  This is the spec's
notion of a well-formed dice string, stated independently of the
parsing functions. -/
def DiceShapeCore (cs : List Char) : Prop :=
  ∃ xs ys : List Char, xs ≠ [] ∧ ys ≠ [] ∧
    (∀ c ∈ xs, c.isDigit = true) ∧ (∀ c ∈ ys, c.isDigit = true) ∧
    (cs = xs ++ 'd' :: ys ∨
      ∃ zs : List Char, zs ≠ [] ∧ (∀ c ∈ zs, c.isDigit = true) ∧
        cs = xs ++ 'd' :: (ys ++ 'k' :: zs))

/-- A string is of the form `XdY` or `XdYkZ`. -/
def DiceShape (s : String) : Prop :=
  DiceShapeCore s.data

/- ## Day 8 MCP: HTTP mode routes

The MCP server source (`mcp_server.py`) is likewise absent from the
snapshot; the HTTP surface is modelled from the spec and README. -/

/-- HTTP request method. -/
inductive Method : Type where
  | GET
  | POST
  deriving Repr, DecidableEq

/-- Modelled from the spec: the route table the tool server exposes in
HTTP mode, given the names of the registered tools: `GET /tools`
(listing) and, for each registered tool, `POST /tools/<name>`
(invocation); covers for the absent `mcp_server.py`. -/
def httpRoutes (tools : List String) : List (Method × String) :=
  (Method.GET, "/tools") :: tools.map (fun name => (Method.POST, "/tools/" ++ name))

/-- Modelled from the spec: request handling of the HTTP tool server.
Each registered tool is a name paired with its body, a function from
the JSON arguments object (kept abstract as a string) to its output.
`GET /tools` answers the listing; `POST /tools/<name>` invokes the
registered tool `name` on the arguments; everything else is
unhandled (`none`). -/
def handleRequest (tools : List (String × (String → String)))
    (m : Method) (path : String) (args : String) : Option String :=
  match m with
  | Method.GET =>
      if path = "/tools" then some (String.intercalate ", " (tools.map Prod.fst))
      else none
  | Method.POST =>
      (tools.find? (fun t => "/tools/" ++ t.1 = path)).map (fun t => t.2 args)

/- ## Theorems for the notebook helper functions -/

/-- C2: for every input string `m`, each message-wrapper function
(`system_prompt`, `assistant_prompt`, `user_prompt`) returns a dict
with exactly the two keys "role" and "content", whose "content" value
is the argument `m` unchanged. -/
theorem prompts_C2 (m : String) :
    ((system_prompt m).map Prod.fst = ["role", "content"] ∧
      (system_prompt m).lookup "content" = some m) ∧
    ((assistant_prompt m).map Prod.fst = ["role", "content"] ∧
      (assistant_prompt m).lookup "content" = some m) ∧
    ((user_prompt m).map Prod.fst = ["role", "content"] ∧
      (user_prompt m).lookup "content" = some m) := by
  refine ⟨⟨rfl, ?_⟩, ⟨rfl, ?_⟩, ⟨rfl, ?_⟩⟩ <;> rfl

/-- C2 witness at a concrete message string. -/
theorem prompts_C2_witness :
    ((system_prompt "hi").map Prod.fst = ["role", "content"] ∧
      (system_prompt "hi").lookup "content" = some "hi") ∧
    ((assistant_prompt "hi").map Prod.fst = ["role", "content"] ∧
      (assistant_prompt "hi").lookup "content" = some "hi") ∧
    ((user_prompt "hi").map Prod.fst = ["role", "content"] ∧
      (user_prompt "hi").lookup "content" = some "hi") :=
  prompts_C2 "hi"

/-- C3: `get_response` calls the client on exactly the request built
from the model name and the message list passed verbatim (same
elements, same order, unmodified), and performs no other computation:
it is definitionally that single call. -/
theorem get_response_C3 {ρ : Type} (client : ChatRequest → ρ)
    (messages : List MessageDict) (model : String) :
    get_response client messages model = client ⟨model, messages⟩ ∧
    (ChatRequest.mk model messages).messages = messages ∧
    (ChatRequest.mk model messages).model = model :=
  ⟨rfl, rfl, rfl⟩

/-- C10: when `get_response` is called without an explicit model
argument, the request sent to the API carries exactly the model name
"gpt-4.1-nano". -/
theorem get_response_C10 {ρ : Type} (client : ChatRequest → ρ)
    (messages : List MessageDict) :
    get_response_default client messages = client ⟨"gpt-4.1-nano", messages⟩ :=
  rfl

/-- C8: for every input string `m`, `system_prompt` returns a dict
whose "role" value is the string "developer", not "system". -/
theorem system_prompt_C8 (m : String) :
    (system_prompt m).lookup "role" = some "developer" ∧
    (system_prompt m).lookup "role" ≠ some "system" := by
  refine ⟨rfl, ?_⟩
  rw [show (system_prompt m).lookup "role" = some "developer" from rfl]
  decide

/-- C4: on every response whose `choices` list has a first element,
`pretty_print` performs exactly one display call, rendering
`message.choices[0].message.content` as Markdown, and nothing else
(its whole effect trace is that single call, and it returns `None`). -/
theorem pretty_print_C4 (r : ChatResponse) (c : Choice)
    (h : r.choices.get? 0 = some c) :
    pretty_print r = some ([DisplayCall.markdown c.message.content], none) := by
  unfold pretty_print
  rw [h]
  rfl

/-- C4 witness at a concrete one-choice response. -/
theorem pretty_print_C4_witness :
    pretty_print ⟨[⟨⟨"hello"⟩⟩]⟩ = some ([DisplayCall.markdown "hello"], none) :=
  pretty_print_C4 ⟨[⟨⟨"hello"⟩⟩]⟩ ⟨⟨"hello"⟩⟩ rfl

/-- C9: whenever `pretty_print` runs to completion, the value it
returns is `None` (the display call's result is not returned), despite
the annotated return type `str`. -/
theorem pretty_print_C9 (r : ChatResponse)
    (p : List DisplayCall × Option String)
    (h : pretty_print r = some p) : p.2 = none := by
  unfold pretty_print at h
  cases hc : r.choices.get? 0 with
  | none =>
      rw [hc] at h
      exact Option.noConfusion h
  | some c =>
      rw [hc] at h
      rw [← Option.some.inj h]

/-- C9 witness at a concrete one-choice response. -/
theorem pretty_print_C9_witness :
    (([DisplayCall.markdown "hi"], (none : Option String))).2 = none :=
  pretty_print_C9 ⟨[⟨⟨"hi"⟩⟩]⟩ ([DisplayCall.markdown "hi"], none) rfl

/- ## Theorems for the MCP HTTP surface and the dice roller -/

/-- C6: in HTTP mode the server's surface is exactly `GET /tools` and,
for every registered tool name, `POST /tools/<name>`: the route table
contains precisely those routes, and `handleRequest` answers a request
exactly when it is one of them (a `POST /tools/<name>` answering by
invoking tool `name` on the arguments object). -/
theorem httpRoutes_C6 (tools : List (String × (String → String)))
    (m : Method) (path : String) (args : String) :
    ((handleRequest tools m path args).isSome = true ↔
      ((m = Method.GET ∧ path = "/tools") ∨
        (m = Method.POST ∧ ∃ t ∈ tools, path = "/tools/" ++ t.1))) ∧
    (∀ names : List String, (m, path) ∈ httpRoutes names ↔
      ((m = Method.GET ∧ path = "/tools") ∨
        (m = Method.POST ∧ ∃ name ∈ names, path = "/tools/" ++ name))) := by
  constructor
  · cases m with
    | GET => by_cases hp : path = "/tools" <;> simp [handleRequest, hp]
    | POST =>
        rw [show handleRequest tools Method.POST path args =
              (tools.find? (fun t => "/tools/" ++ t.1 = path)).map (fun t => t.2 args)
            from rfl]
        rw [Option.isSome_map', List.find?_isSome]
        simp [eq_comm]
  · intro names
    cases m with
    | GET => simp [httpRoutes, eq_comm]
    | POST => simp [httpRoutes, eq_comm]

/-- C7: the parsing stage of the dice roller is deterministic and all
randomness lies only in the sampling step: the parsed triple produced
by `roll_dice` does not depend on the random source. -/
theorem roll_dice_C7 (s : String) (rand₁ rand₂ : Nat → Nat) :
    (roll_dice rand₁ s).map Prod.fst = (roll_dice rand₂ s).map Prod.fst := by
  cases h : parseDice s <;> simp [roll_dice, h]

/- ## Lemmas about the dice-string scanner -/

/-- Scanning step on a digit character. -/
theorem takeDigits_cons_digit (c : Char) (cs : List Char) (h : c.isDigit = true) :
    takeDigits (c :: cs) = (c :: (takeDigits cs).1, (takeDigits cs).2) := by
  simp [takeDigits, h]

/-- Scanning step on a non-digit character. -/
theorem takeDigits_cons_not (c : Char) (cs : List Char) (h : c.isDigit = false) :
    takeDigits (c :: cs) = ([], c :: cs) := by
  simp [takeDigits, h]

/-- The scanned digit prefix and the remainder recompose the input. -/
theorem takeDigits_append (cs : List Char) :
    (takeDigits cs).1 ++ (takeDigits cs).2 = cs := by
  induction cs with
  | nil => rfl
  | cons c cs ih =>
      cases hc : c.isDigit with
      | true =>
          rw [takeDigits_cons_digit c cs hc]
          simpa using ih
      | false => rw [takeDigits_cons_not c cs hc]; rfl

/-- Every character of the scanned prefix is a digit. -/
theorem takeDigits_digits (cs : List Char) :
    ∀ c ∈ (takeDigits cs).1, c.isDigit = true := by
  induction cs with
  | nil => intro a ha; cases ha
  | cons c cs ih =>
      cases hc : c.isDigit with
      | true =>
          rw [takeDigits_cons_digit c cs hc]
          intro a ha
          rcases List.mem_cons.mp ha with rfl | ha
          · exact hc
          · exact ih a ha
      | false =>
          rw [takeDigits_cons_not c cs hc]
          intro a ha
          cases ha

/-- The remainder left by the scanner never starts with a digit. -/
theorem takeDigits_rest (cs : List Char) :
    ∀ c cs', (takeDigits cs).2 = c :: cs' → c.isDigit = false := by
  induction cs with
  | nil => intro a cs' h; cases h
  | cons c cs ih =>
      cases hc : c.isDigit with
      | true => rw [takeDigits_cons_digit c cs hc]; exact ih
      | false =>
          rw [takeDigits_cons_not c cs hc]
          intro a cs' h
          injection h with h1 h2
          subst h1
          exact hc

/-- The scanner is determined by any digits-then-non-digit split of the
input. -/
theorem takeDigits_eq_of (ds rest : List Char)
    (hds : ∀ c ∈ ds, c.isDigit = true)
    (hrest : ∀ c cs', rest = c :: cs' → c.isDigit = false) :
    takeDigits (ds ++ rest) = (ds, rest) := by
  induction ds with
  | nil =>
      cases rest with
      | nil => rfl
      | cons c cs' => exact takeDigits_cons_not c cs' (hrest c cs' rfl)
  | cons d ds ih =>
      have hd : d.isDigit = true := hds d (List.mem_cons_self d ds)
      rw [List.cons_append, takeDigits_cons_digit d (ds ++ rest) hd,
        ih (fun c hc => hds c (List.mem_cons_of_mem d hc))]

/-- On an all-digit input the scanner consumes everything. -/
theorem takeDigits_all (cs : List Char) (h : ∀ c ∈ cs, c.isDigit = true) :
    takeDigits cs = (cs, []) := by
  have h2 := takeDigits_eq_of cs [] h (fun c cs' hc => List.noConfusion hc)
  rwa [List.append_nil] at h2

/-- Success condition of the after-k stage: the remaining characters
are a nonempty digit string. -/
theorem parseAfterK_isSome (x y : Nat) (cs : List Char) :
    (parseAfterK x y cs).isSome = true ↔
      (cs ≠ [] ∧ ∀ c ∈ cs, c.isDigit = true) := by
  constructor
  · intro h
    unfold parseAfterK at h
    by_cases h1 : (takeDigits cs).1 = []
    · simp [h1] at h
    by_cases h2 : (takeDigits cs).2 = []
    · have hs := takeDigits_append cs
      rw [h2, List.append_nil] at hs
      refine ⟨?_, ?_⟩
      · rw [← hs]; exact h1
      · intro c hc
        rw [← hs] at hc
        exact takeDigits_digits cs c hc
    · simp [h1, h2] at h
  · rintro ⟨hne, hall⟩
    unfold parseAfterK
    rw [takeDigits_all cs hall]
    simp [hne]

/-- Success condition of the after-d stage: nonempty digits, optionally
followed by the letter k and nonempty digits. -/
theorem parseAfterD_isSome (x : Nat) (cs : List Char) :
    (parseAfterD x cs).isSome = true ↔
      ((cs ≠ [] ∧ ∀ c ∈ cs, c.isDigit = true) ∨
        ∃ ys zs : List Char, ys ≠ [] ∧ zs ≠ [] ∧
          (∀ c ∈ ys, c.isDigit = true) ∧ (∀ c ∈ zs, c.isDigit = true) ∧
          cs = ys ++ 'k' :: zs) := by
  constructor
  · intro h
    unfold parseAfterD at h
    cases hpy : takeDigits cs with
    | mk ys rest =>
        simp only [hpy] at h
        have hsplit : ys ++ rest = cs := by
          have h0 := takeDigits_append cs
          rw [hpy] at h0
          exact h0
        have hdig : ∀ c ∈ ys, c.isDigit = true := by
          have h0 := takeDigits_digits cs
          rw [hpy] at h0
          exact h0
        by_cases hys : ys = []
        · simp [hys] at h
        rw [if_neg hys] at h
        cases rest with
        | nil =>
            refine Or.inl ⟨?_, ?_⟩
            · rw [← hsplit]
              simpa using hys
            · intro c hc
              rw [← hsplit] at hc
              exact hdig c (by simpa using hc)
        | cons c rest' =>
            have h' : (if c = 'k' then parseAfterK x (digitsToNat ys) rest'
                else none).isSome = true := h
            by_cases hck : c = 'k'
            · rw [if_pos hck] at h'
              subst hck
              obtain ⟨hzne, hzall⟩ := (parseAfterK_isSome _ _ rest').mp h'
              exact Or.inr ⟨ys, rest', hys, hzne, hdig, hzall, hsplit.symm⟩
            · rw [if_neg hck] at h'
              exact absurd h' (by simp)
  · rintro (⟨hne, hall⟩ | ⟨ys, zs, hys, hzs, hdy, hdz, hcs⟩)
    · unfold parseAfterD
      rw [takeDigits_all cs hall]
      simp [hne]
    · have h1 : takeDigits cs = (ys, 'k' :: zs) := by
        rw [hcs]
        refine takeDigits_eq_of ys ('k' :: zs) hdy ?_
        intro c cs' hc
        injection hc with hc1 hc2
        subst hc1
        rfl
      unfold parseAfterD
      rw [h1]
      simp [hys]
      exact (parseAfterK_isSome _ _ zs).mpr ⟨hzs, hdz⟩

/-- The dice parser succeeds exactly on character lists of the shape
`XdY` or `XdYkZ`. -/
theorem parseDiceCore_isSome_iff (cs : List Char) :
    (parseDiceCore cs).isSome = true ↔ DiceShapeCore cs := by
  constructor
  · intro h
    unfold parseDiceCore at h
    cases hpx : takeDigits cs with
    | mk xs rest =>
        simp only [hpx] at h
        have hsplit : xs ++ rest = cs := by
          have h0 := takeDigits_append cs
          rw [hpx] at h0
          exact h0
        have hdig : ∀ c ∈ xs, c.isDigit = true := by
          have h0 := takeDigits_digits cs
          rw [hpx] at h0
          exact h0
        by_cases hxs : xs = []
        · simp [hxs] at h
        rw [if_neg hxs] at h
        cases rest with
        | nil => exact absurd h (by simp)
        | cons c rest' =>
            have h' : (if c = 'd' then parseAfterD (digitsToNat xs) rest'
                else none).isSome = true := h
            by_cases hcd : c = 'd'
            · rw [if_pos hcd] at h'
              subst hcd
              rcases (parseAfterD_isSome _ rest').mp h' with
                ⟨hne, hall⟩ | ⟨ys, zs, hys, hzs, hdy, hdz, hr⟩
              · exact ⟨xs, rest', hxs, hne, hdig, hall, Or.inl hsplit.symm⟩
              · refine ⟨xs, ys, hxs, hys, hdig, hdy, Or.inr ⟨zs, hzs, hdz, ?_⟩⟩
                rw [← hsplit, hr]
            · rw [if_neg hcd] at h'
              exact absurd h' (by simp)
  · rintro ⟨xs, ys, hxs, hys, hdx, hdy, hcs | ⟨zs, hzs, hdz, hcs⟩⟩
    · have h1 : takeDigits cs = (xs, 'd' :: ys) := by
        rw [hcs]
        refine takeDigits_eq_of xs ('d' :: ys) hdx ?_
        intro c cs' hc
        injection hc with hc1 hc2
        subst hc1
        rfl
      unfold parseDiceCore
      rw [h1]
      simp [hxs]
      exact (parseAfterD_isSome _ ys).mpr (Or.inl ⟨hys, hdy⟩)
    · have h1 : takeDigits cs = (xs, 'd' :: (ys ++ 'k' :: zs)) := by
        rw [hcs]
        refine takeDigits_eq_of xs ('d' :: (ys ++ 'k' :: zs)) hdx ?_
        intro c cs' hc
        injection hc with hc1 hc2
        subst hc1
        rfl
      unfold parseDiceCore
      rw [h1]
      simp [hxs]
      exact (parseAfterD_isSome _ (ys ++ 'k' :: zs)).mpr
        (Or.inr ⟨ys, zs, hys, hzs, hdy, hdz, rfl⟩)

/-- C5: on every input string that is not of the form `XdY` or
`XdYkZ`, the dice-roller tool fails with the "Invalid dice notation"
error instead of returning a roll result, and on every string of those
forms it returns a result and does not raise that error. -/
theorem roll_dice_C5 (rand : Nat → Nat) (s : String) :
    (roll_dice_tool rand s = Except.error "Invalid dice notation" ↔ ¬ DiceShape s) ∧
    ((∃ r, roll_dice_tool rand s = Except.ok r) ↔ DiceShape s) := by
  have h1 : (parseDice s).isSome = true ↔ DiceShape s :=
    parseDiceCore_isSome_iff s.data
  have h2 : roll_dice_tool rand s = Except.error "Invalid dice notation" ↔
      parseDice s = none := by
    unfold roll_dice_tool roll_dice
    cases hp : parseDice s <;> simp [hp]
  have h3 : (∃ r, roll_dice_tool rand s = Except.ok r) ↔
      (parseDice s).isSome = true := by
    unfold roll_dice_tool roll_dice
    cases hp : parseDice s <;> simp [hp]
  refine ⟨?_, ?_⟩
  · rw [h2, ← h1, ← Option.not_isSome_iff_eq_none]
  · rw [h3, h1]

/-- C1: whenever the dice string parses as `XdY` (faces at least 1),
the roller's result is the sum of a list of `X` integer draws in
`[1, Y]`; when it parses as `XdYkZ` with `Z ≤ X`, the result is the sum
of the top `Z` of the `X` draws: the kept draws are `Z` of the `X`
draws, every dropped draw is at most every kept one, and the result is
the sum of the kept ones. -/
theorem roll_dice_C1 (rand : Nat → Nat) (s : String) (x y : Nat)
    (keep : Option Nat) (hy : 1 ≤ y)
    (hparse : parseDice s = some (x, y, keep)) :
    ∃ draws : List Nat,
      draws.length = x ∧ (∀ v ∈ draws, 1 ≤ v ∧ v ≤ y) ∧
      (keep = none → roll_dice rand s = some ((x, y, keep), draws.sum)) ∧
      (∀ z, keep = some z → z ≤ x →
        ∃ kept dropped : List Nat,
          kept.length = z ∧ (kept ++ dropped).Perm draws ∧
          (∀ a ∈ kept, ∀ b ∈ dropped, b ≤ a) ∧
          roll_dice rand s = some ((x, y, keep), kept.sum)) := by
  refine ⟨drawsOf rand x y, ?_, ?_, ?_, ?_⟩
  · simp [drawsOf]
  · intro v hv
    simp only [drawsOf, List.mem_map, List.mem_range] at hv
    obtain ⟨i, hi, rfl⟩ := hv
    have hmod : rand i % y < y := Nat.mod_lt _ (by omega)
    omega
  · intro hk
    subst hk
    unfold roll_dice
    rw [hparse]
    rfl
  · intro z hk hzx
    subst hk
    haveI instTot : IsTotal Nat (fun a b => b ≤ a) :=
      ⟨fun a b => (Nat.le_total a b).symm⟩
    haveI instTrans : IsTrans Nat (fun a b => b ≤ a) :=
      ⟨fun a b c h1 h2 => Nat.le_trans h2 h1⟩
    have hperm : (List.insertionSort (fun a b => b ≤ a) (drawsOf rand x y)).Perm
        (drawsOf rand x y) :=
      List.perm_insertionSort _ _
    have hsorted : List.Sorted (fun a b => b ≤ a)
        (List.insertionSort (fun a b => b ≤ a) (drawsOf rand x y)) :=
      List.sorted_insertionSort _ _
    have hlen : (List.insertionSort (fun a b => b ≤ a) (drawsOf rand x y)).length = x := by
      rw [hperm.length_eq]
      simp [drawsOf]
    refine ⟨(List.insertionSort (fun a b => b ≤ a) (drawsOf rand x y)).take z,
      (List.insertionSort (fun a b => b ≤ a) (drawsOf rand x y)).drop z,
      ?_, ?_, ?_, ?_⟩
    · rw [List.length_take, hlen]
      omega
    · rw [List.take_append_drop]
      exact hperm
    · have hpw := hsorted
      rw [← List.take_append_drop z
        (List.insertionSort (fun a b => b ≤ a) (drawsOf rand x y))] at hpw
      have := (List.pairwise_append.mp hpw).2.2
      intro a ha b hb
      exact this a ha b hb
    · unfold roll_dice
      rw [hparse]
      rfl

/-- C1 witness: the notation 4d6k3 with a concrete random source. -/
theorem roll_dice_C1_witness :
    ∃ draws : List Nat,
      draws.length = 4 ∧ (∀ v ∈ draws, 1 ≤ v ∧ v ≤ 6) ∧
      ((some 3 : Option Nat) = none →
        roll_dice (fun i => i) "4d6k3" = some ((4, 6, some 3), draws.sum)) ∧
      (∀ z, (some 3 : Option Nat) = some z → z ≤ 4 →
        ∃ kept dropped : List Nat,
          kept.length = z ∧ (kept ++ dropped).Perm draws ∧
          (∀ a ∈ kept, ∀ b ∈ dropped, b ≤ a) ∧
          roll_dice (fun i => i) "4d6k3" = some ((4, 6, some 3), kept.sum)) :=
  roll_dice_C1 (fun i => i) "4d6k3" 4 6 (some 3) (by decide) (by rfl)
